import Mathlib

/-!
Verification development for the `constrained_loaders` package.

The package declares which filters, sorts and query extensions a data
loading endpoint exposes (`LoaderSpec`), and provides builders that apply a
caller's validated requests to an underlying query representation.

We embed the code shallowly:

* `SortDirection`, `DefaultSort` and `DefaultSort.from_string` are direct
  translations of `constrained_loaders/abstraction.py`.
* The `Obj` namespace models Python object identity for containers with a
  small heap (`Heap`), so that statements about `LoaderSpec.clone`
  (fresh dict objects sharing leaf transformer instances) and about the
  `LoaderSpecPiece` constructor copying its argument can be made precise.
* The `Base` namespace models the concrete configurable builder
  (`LoaderBuilderBase`), whose implementation module is not part of the
  given sources; those definitions are modelled from the specification.
* The `SA` namespace translates `constrained_loaders/sa/loader_builder.py`
  (`SASimpleLoaderBuilder`, `SAComplexLoaderBuilder`, and the base class
  convenience method `set_page`).
-/

/-- `SortDirection` from `abstraction.py`: direction of sorting. -/
inductive SortDirection where
  | ASC
  | DESC
  | UNSPECIFIED
deriving DecidableEq, Repr

/-- `DefaultSort` dataclass from `abstraction.py`: name of a sort field in
the spec together with a direction (dataclass default `UNSPECIFIED`). -/
structure DefaultSort where
  sort : String
  direction : SortDirection
deriving DecidableEq, Repr

/-- `DefaultSort.from_string`: `return cls(sort)` uses the dataclass
default for `direction`, namely `SortDirection.UNSPECIFIED`. -/
def DefaultSort.from_string (sort : String) : DefaultSort :=
  ⟨sort, SortDirection.UNSPECIFIED⟩

/-- Python dict lookup on an insertion-ordered association list with
string keys (keys are unique in any dict we build). -/
def assoc {β : Type} : List (String × β) → String → Option β
  | [], _ => none
  | p :: rest, k => if p.1 = k then some p.2 else assoc rest k

/-- A tiny heap of mutable container objects: the address of an object is
its index in `store`, and allocating appends a fresh object.  This models
Python object identity for dicts and lists. -/
structure Heap (α : Type) where
  store : List α
deriving DecidableEq, Repr

/-- Dereference an address (out-of-range addresses give the default). -/
def Heap.get {α : Type} [Inhabited α] (h : Heap α) (a : Nat) : α :=
  h.store.getD a default

/-- Allocate a fresh object, returning the new heap and its address. -/
def Heap.alloc {α : Type} (h : Heap α) (x : α) : Heap α × Nat :=
  (⟨h.store ++ [x]⟩, h.store.length)

/-- Mutate the object stored at address `a` in place. -/
def Heap.update {α : Type} [Inhabited α] (h : Heap α) (a : Nat) (g : α → α) : Heap α :=
  ⟨h.store.set a (g (h.get a))⟩

namespace Obj

/-- Address (identity) of a leaf transformer instance (`QuerySort`,
`QueryFilter` or `LoaderExtension` object) or of a nested dict. -/
abbrev PyDict := List (String × Nat)

/-- `extensions` field of `LoaderSpec`.  Its own docstring documents it as
a mapping from extension name to extension instance (`dictRef`), while
`clone()` builds `list(self.extensions)`, which for a mapping is the plain
list of its keys (`strList`). -/
inductive ExtField where
  | dictRef : Nat → ExtField
  | strList : List String → ExtField
deriving DecidableEq, Repr

/-- `LoaderSpec` from `abstraction.py`, with container fields represented
by heap addresses: `sortable_fields` is a dict from field name to
`QuerySort` instance, `filterable_fields` a dict from field name to the
address of an inner dict from operator name to `QueryFilter` instance. -/
structure LoaderSpec where
  sortable_fields : Nat
  default_sort_by : List DefaultSort
  filterable_fields : Nat
  extensions : ExtField
deriving DecidableEq, Repr

/-- The dict comprehension in `clone()`:
`{field: dict(filters) for field, filters in self.filterable_fields.items()}` -
each inner dict is copied into a freshly allocated dict object. -/
def cloneFilterable : Heap PyDict → List (String × Nat) → Heap PyDict × List (String × Nat)
  | h, [] => (h, [])
  | h, p :: rest =>
      let q := h.alloc (h.get p.2)
      let r := cloneFilterable q.1 rest
      (r.1, (p.1, q.2) :: r.2)

/-- `LoaderSpec.clone` from `abstraction.py`: fresh `dict` for
`sortable_fields`, fresh `list` for `default_sort_by`, fresh two-level
dicts for `filterable_fields`, and `list(self.extensions)` for
`extensions` (for a mapping, the list of its keys). -/
def LoaderSpec.clone (h : Heap PyDict) (s : LoaderSpec) : Heap PyDict × LoaderSpec :=
  let p1 := h.alloc (h.get s.sortable_fields)
  let p2 := cloneFilterable p1.1 (p1.1.get s.filterable_fields)
  let p3 := p2.1.alloc p2.2
  (p3.1,
    ⟨p1.2, s.default_sort_by, p3.2,
      match s.extensions with
      | ExtField.dictRef a => ExtField.strList ((h.get a).map (fun q => q.1))
      | ExtField.strList l => ExtField.strList l⟩)

/-- Resolve a sortable field name to the identity of its `QuerySort`
instance: `spec.sortable_fields[field]`. -/
def resolveSort (h : Heap PyDict) (s : LoaderSpec) (field : String) : Option Nat :=
  assoc (h.get s.sortable_fields) field

/-- Resolve a field and operator to the identity of the registered
`QueryFilter` instance: `spec.filterable_fields[field][op]`. -/
def resolveFilter (h : Heap PyDict) (s : LoaderSpec) (field op : String) : Option Nat :=
  (assoc (h.get s.filterable_fields) field).bind (fun ia => assoc (h.get ia) op)

/-- Resolve an extension name to the identity of its `LoaderExtension`
instance: `spec.extensions[name]`.  Indexing a plain list of key strings
by a name cannot resolve an instance (in Python it raises `TypeError`),
modelled as `none`. -/
def resolveExtension (h : Heap PyDict) (s : LoaderSpec) (name : String) : Option Nat :=
  match s.extensions with
  | ExtField.dictRef a => assoc (h.get a) name
  | ExtField.strList _ => none

/-- Well-formedness of a spec's container addresses in a heap: the two
top-level dicts exist, and every inner operator dict referenced from
`filterable_fields` exists. -/
def specValid (h : Heap PyDict) (s : LoaderSpec) : Prop :=
  s.sortable_fields < h.store.length ∧ s.filterable_fields < h.store.length ∧
    ∀ p ∈ h.get s.filterable_fields, p.2 < h.store.length

instance specValidDecidable (h : Heap PyDict) (s : LoaderSpec) :
    Decidable (specValid h s) := by
  unfold specValid
  infer_instance

/-- `LoaderSpecPiece.__init__` from `abstraction.py`:
`self._required_extensions = list(required_extensions or [])`.  The piece
stores a freshly allocated list object; passing `None` (or omitting the
argument) yields an empty list.  The argument, when present, is the
address of the caller's list object in a heap of string lists. -/
def LoaderSpecPiece.mkPiece (h : Heap (List String)) (arg : Option Nat) :
    Heap (List String) × Nat :=
  let contents := match arg with
    | none => []
    | some a => h.get a
  h.alloc contents

/-- `LoaderSpecPiece.required_extensions` property: returns the piece's
internal list. -/
def LoaderSpecPiece.required_extensions (h : Heap (List String)) (ref : Nat) : List String :=
  h.get ref

end Obj

namespace Base

/-!
Model of the concrete configurable builder.  The sources under `src/`
contain only the abstract `ConfigurableLoaderBuilder` contract; the
concrete `LoaderBuilderBase` class that the SQLAlchemy builders inherit
from is imported from a module that is not part of the given sources.
The definitions in this namespace are therefore modelled from the
specification (sections 3, 4.3 and 7 of the spec).

The opaque query value `Q` is modelled as a trace of the transformations
applied to it (`Query`), so that "the working query reflects exactly these
applications, in this order" is a statement about the trace.
-/

/-- Modelled from the spec: a `QuerySort` spec piece is a query
transformer carrying the list of extension names it requires.  Applying
it appends a sort event for its field to the query trace. -/
structure QuerySort where
  required_extensions : List String
deriving DecidableEq, Repr

/-- Modelled from the spec: a `QueryFilter` spec piece, carrying its
required extension names. -/
structure QueryFilter where
  required_extensions : List String
deriving DecidableEq, Repr

/-- Modelled from the spec: a `LoaderExtension` spec piece, carrying its
required extension names. -/
structure LoaderExtension where
  required_extensions : List String
deriving DecidableEq, Repr

/-- Modelled from the spec: the declarative `LoaderSpec` registry as the
builder consumes it (pure lookup tables; object identity plays no role
in the builder claims). -/
structure LoaderSpec where
  sortable_fields : List (String × QuerySort)
  default_sort_by : List DefaultSort
  filterable_fields : List (String × List (String × QueryFilter))
  extensions : List (String × LoaderExtension)
deriving DecidableEq, Repr

/-- One transformation applied to the opaque query value: an extension
application, a filter application, a sort application, or an offset/limit
constraint. -/
inductive QEvent where
  | ext (name : String)
  | filt (field op : String) (value : Int)
  | sorted (field : String) (dir : SortDirection)
  | offs (n : Int)
  | lim (n : Int)
deriving DecidableEq, Repr

/-- The working query, as the trace of transformations applied to it. -/
abbrev Query := List QEvent

/-- The `ExtensionNotFound` error raised by `apply_extension`,
`add_sort` and `add_filter` when a name does not resolve in the spec. -/
inductive CallError where
  | extensionNotFound (name : String)
deriving DecidableEq, Repr

/-- Modelled from the spec: the state of `LoaderBuilderBase` - the shared
spec, the owned working query, the set of extension names already applied
in this build session, and whether an explicit sort was added. -/
structure LoaderBuilderBase where
  spec : LoaderSpec
  query : Query
  applied_extensions : List String
  sort_added : Bool
deriving DecidableEq, Repr

/-- Modelled from the spec: a fresh builder for a spec, holding the bare
query (no transformations applied yet). -/
def mkBuilder (spec : LoaderSpec) : LoaderBuilderBase :=
  ⟨spec, [], [], false⟩

/-- Modelled from the spec (§4.3 `apply_extension`): look the name up in
`spec.extensions`, failing with `ExtensionNotFound` if absent; if already
applied in this session, no-op; otherwise apply the extension's transform
and mark the name applied.  The returned pair is the builder state after
the call together with the raised error, if any. -/
def applyExtension (st : LoaderBuilderBase) (name : String) :
    LoaderBuilderBase × Option CallError :=
  match assoc st.spec.extensions name with
  | none => (st, some (CallError.extensionNotFound name))
  | some _ =>
      if name ∈ st.applied_extensions then (st, none)
      else
        ({ st with
            query := st.query ++ [QEvent.ext name],
            applied_extensions := st.applied_extensions ++ [name] }, none)

/-- Modelled from the spec (§4.3): apply, in order, every extension named
in a piece's `required_extensions` through the same path as
`apply_extension`, stopping at the first failure. -/
def applyRequiredExtensions : LoaderBuilderBase → List String →
    LoaderBuilderBase × Option CallError
  | st, [] => (st, none)
  | st, n :: rest =>
      match applyExtension st n with
      | (st1, none) => applyRequiredExtensions st1 rest
      | (st1, some e) => (st1, some e)

/-- Modelled from the spec (§4.3 `add_sort`): look the field up in
`spec.sortable_fields` (failing with the not-found error), apply the
required extensions, then `apply_sorting` and record that an explicit
sort was added. -/
def addSort (st : LoaderBuilderBase) (field : String) (dir : SortDirection) :
    LoaderBuilderBase × Option CallError :=
  match assoc st.spec.sortable_fields field with
  | none => (st, some (CallError.extensionNotFound field))
  | some qs =>
      match applyRequiredExtensions st qs.required_extensions with
      | (st1, some e) => (st1, some e)
      | (st1, none) =>
          ({ st1 with
              query := st1.query ++ [QEvent.sorted field dir],
              sort_added := true }, none)

/-- Modelled from the spec (§4.3 `add_filter`): look up the field and then
the operator in the two-level `spec.filterable_fields` (failing with the
not-found error if either lookup misses, before any mutation), apply the
filter's required extensions, then `apply_filter`. -/
def addFilter (st : LoaderBuilderBase) (field op : String) (v : Int) :
    LoaderBuilderBase × Option CallError :=
  match assoc st.spec.filterable_fields field with
  | none => (st, some (CallError.extensionNotFound field))
  | some ops =>
      match assoc ops op with
      | none => (st, some (CallError.extensionNotFound field))
      | some qf =>
          match applyRequiredExtensions st qf.required_extensions with
          | (st1, some e) => (st1, some e)
          | (st1, none) =>
              ({ st1 with query := st1.query ++ [QEvent.filt field op v] }, none)

/-- Modelled from the spec (§4.3 `set_offset`): constrain the working
query's result window. -/
def set_offset (st : LoaderBuilderBase) (n : Int) :
    LoaderBuilderBase × Option CallError :=
  ({ st with query := st.query ++ [QEvent.offs n] }, none)

/-- Modelled from the spec (§4.3 `set_limit`): constrain the working
query's result window. -/
def set_limit (st : LoaderBuilderBase) (n : Int) :
    LoaderBuilderBase × Option CallError :=
  ({ st with query := st.query ++ [QEvent.lim n] }, none)

/-- Modelled from the spec (§4.3 `build`): apply the `default_sort_by`
entries, in declared order, through the `add_sort` path. -/
def applyDefaults : LoaderBuilderBase → List DefaultSort →
    LoaderBuilderBase × Option CallError
  | st, [] => (st, none)
  | st, d :: rest =>
      match addSort st d.sort d.direction with
      | (st1, none) => applyDefaults st1 rest
      | (st1, some e) => (st1, some e)

/-- Modelled from the spec (§4.3 `build`): if no explicit sort was added
in this session, apply the default sorts in declared order; the returned
`Loader` is bound to the resulting final query. -/
def build (st : LoaderBuilderBase) : LoaderBuilderBase × Option CallError :=
  if st.sort_added then (st, none) else applyDefaults st st.spec.default_sort_by

/-- One configuration call in a build session. -/
inductive BOp where
  | ext (name : String)
  | filter (field op : String) (v : Int)
  | sort (field : String) (dir : SortDirection)
  | offs (n : Int)
  | lim (n : Int)
deriving DecidableEq, Repr

/-- Run one configuration call against the builder. -/
def runOp (st : LoaderBuilderBase) : BOp → LoaderBuilderBase × Option CallError
  | BOp.ext n => applyExtension st n
  | BOp.filter f o v => addFilter st f o v
  | BOp.sort f d => addSort st f d
  | BOp.offs n => set_offset st n
  | BOp.lim n => set_limit st n

/-- Run a whole session: each call's raised error, if any, is caught by
the caller and the session continues with the builder state the failed
call left behind. -/
def runOps : LoaderBuilderBase → List BOp → LoaderBuilderBase
  | st, [] => st
  | st, o :: rest => runOps (runOp st o).1 rest

/-- Number of applications of the extension named `n` recorded in a query
trace. -/
def countExt (n : String) (q : Query) : Nat :=
  (q.filter (fun e => decide (e = QEvent.ext n))).length

/-- The sort applications recorded in a query trace, in order. -/
def sortEvents (q : Query) : List (String × SortDirection) :=
  q.filterMap (fun e =>
    match e with
    | QEvent.sorted f d => some (f, d)
    | _ => none)

/-- The per-session extension bookkeeping invariant: the query trace holds
exactly one application of every extension name marked applied, and none
of any other name. -/
def extInvariant (st : LoaderBuilderBase) : Prop :=
  ∀ n, countExt n st.query = (if n ∈ st.applied_extensions then 1 else 0)

/-- Every entry of `default_sort_by` resolves in the spec: its field is a
key of `sortable_fields` and every required extension of that sort is a
key of `extensions`. -/
def defaultsResolvable (spec : LoaderSpec) : Bool :=
  spec.default_sort_by.all (fun d =>
    match assoc spec.sortable_fields d.sort with
    | none => false
    | some qs => qs.required_extensions.all (fun n => (assoc spec.extensions n).isSome))

/-- Concrete spec for the build-defaults witness: one sortable field
`"created"` with no required extensions, used as the single default
sort. -/
def exSpecC8 : LoaderSpec :=
  ⟨[("created", ⟨[]⟩)], [⟨"created", SortDirection.ASC⟩], [], []⟩

/-- A fresh builder over `exSpecC8`. -/
def exBuilderC8 : LoaderBuilderBase := mkBuilder exSpecC8

/-- `SASimpleLoaderBuilder.build` from `sa/loader_builder.py` (lines
31-32): `return SALoader(self._query, self._session)`.  The method
overrides `build()` on the builder's inherited state and binds the
returned loader to the current working query as-is: it reads nothing but
`self._query` (and the session), calls no base implementation, and in
particular applies none of `spec.default_sort_by`.  The returned value is
the query the `SALoader` is bound to. -/
def SASimpleLoaderBuilder.build (st : LoaderBuilderBase) : Query :=
  st.query

end Base

namespace SA

/-- SQLAlchemy `Select` as the simple builder uses it: an opaque base
query plus the offset and limit constraints set on it (`Select.offset`
and `Select.limit` each replace the previous value). -/
structure Select where
  base : Nat
  offsetVal : Option Int
  limitVal : Option Int
deriving DecidableEq, Repr

/-- `Select.offset(n)`: the same query with the offset constraint `n`. -/
def Select.offset (q : Select) (n : Int) : Select :=
  { q with offsetVal := some n }

/-- `Select.limit(n)`: the same query with the limit constraint `n`. -/
def Select.limit (q : Select) (n : Int) : Select :=
  { q with limitVal := some n }

/-- Errors a builder configuration call could raise. -/
inductive SAError where
  | invalidParameter
deriving DecidableEq, Repr

/-- `SASimpleLoaderBuilder` state: the working query and the session. -/
structure SASimpleLoaderBuilder where
  query : Select
  session : Nat
deriving DecidableEq, Repr

/-- `SASimpleLoaderBuilder.set_offset` from `sa/loader_builder.py`:
`self._query = self._query.offset(offset)` - no validation, never
raises. -/
def SASimpleLoaderBuilder.set_offset (b : SASimpleLoaderBuilder) (n : Int) :
    Except SAError SASimpleLoaderBuilder :=
  Except.ok { b with query := b.query.offset n }

/-- `SASimpleLoaderBuilder.set_limit` from `sa/loader_builder.py`:
`self._query = self._query.limit(limit)` - no validation, never
raises. -/
def SASimpleLoaderBuilder.set_limit (b : SASimpleLoaderBuilder) (n : Int) :
    Except SAError SASimpleLoaderBuilder :=
  Except.ok { b with query := b.query.limit n }

/-- `BuiltQuery` from `sa/loader_builder.py`: opaque complex query. -/
structure BuiltQuery where
  id : Nat
deriving DecidableEq, Repr

/-- `SAComplexLoaderBuilder` state: the working query and the session. -/
structure SAComplexLoaderBuilder where
  query : BuiltQuery
  session : Nat
deriving DecidableEq, Repr

/-- `SAComplexLoaderBuilder.set_offset` from `sa/loader_builder.py`: the
body is `pass` - the call does nothing at all. -/
def SAComplexLoaderBuilder.set_offset (b : SAComplexLoaderBuilder) (_n : Int) :
    Except SAError SAComplexLoaderBuilder :=
  Except.ok b

/-- `SAComplexLoaderBuilder.set_limit` from `sa/loader_builder.py`: the
body is `pass` - the call does nothing at all. -/
def SAComplexLoaderBuilder.set_limit (b : SAComplexLoaderBuilder) (_n : Int) :
    Except SAError SAComplexLoaderBuilder :=
  Except.ok b

/-- The abstract `set_offset`/`set_limit` operations a concrete
`ConfigurableLoaderBuilder` supplies. -/
structure ConfigurableOps (B : Type) where
  set_offset : B → Int → Except SAError B
  set_limit : B → Int → Except SAError B

/-- `ConfigurableLoaderBuilder.set_page` from `abstraction.py`:
`self.set_limit(items_per_page)` then
`self.set_offset(page * items_per_page)`, dispatching to the concrete
builder's own methods. -/
def set_page {B : Type} (ops : ConfigurableOps B) (b : B)
    (page items_per_page : Int) : Except SAError B :=
  (ops.set_limit b items_per_page).bind
    (fun b1 => ops.set_offset b1 (page * items_per_page))

/-- The operations of `SASimpleLoaderBuilder`. -/
def simpleOps : ConfigurableOps SASimpleLoaderBuilder :=
  ⟨SASimpleLoaderBuilder.set_offset, SASimpleLoaderBuilder.set_limit⟩

end SA

namespace Obj

/-- What `LoaderSpec.clone` guarantees about container independence and
leaf sharing, for an original `s` in heap `h` and its clone `c` in the
post-clone heap `h'`: the clone's containers are fresh objects; mutating
a container of one spec (any in-place change `g` of the dict object, which
covers adding and removing entries, at either level of the two-level
filter lookup) leaves every resolution of the other spec unchanged; and
both specs resolve the identical leaf instances for every key. -/
def cloneIndependence (h : Heap PyDict) (s : LoaderSpec) (h' : Heap PyDict)
    (c : LoaderSpec) : Prop :=
  (c.sortable_fields ≠ s.sortable_fields ∧
    c.filterable_fields ≠ s.filterable_fields) ∧
  (∀ g : PyDict → PyDict,
    (h'.update c.sortable_fields g).get s.sortable_fields = h.get s.sortable_fields) ∧
  (∀ g : PyDict → PyDict,
    (h'.update s.sortable_fields g).get c.sortable_fields = h'.get c.sortable_fields) ∧
  (∀ g : PyDict → PyDict, ∀ f op,
    resolveFilter (h'.update c.filterable_fields g) s f op = resolveFilter h s f op) ∧
  (∀ g : PyDict → PyDict, ∀ f op,
    resolveFilter (h'.update s.filterable_fields g) c f op = resolveFilter h' c f op) ∧
  (∀ f1 ca, assoc (h'.get c.filterable_fields) f1 = some ca →
    ∀ g : PyDict → PyDict, ∀ f op,
      resolveFilter (h'.update ca g) s f op = resolveFilter h s f op) ∧
  (∀ f1 oa, assoc (h.get s.filterable_fields) f1 = some oa →
    ∀ g : PyDict → PyDict, ∀ f op,
      resolveFilter (h'.update oa g) c f op = resolveFilter h' c f op) ∧
  (∀ f, resolveSort h' c f = resolveSort h s f) ∧
  (∀ f op, resolveFilter h' c f op = resolveFilter h s f op)

/-- Concrete heap for evaluating `clone`'s handling of `extensions`: the
dict at address 0 is an (empty) `sortable_fields` dict, address 1 an
(empty) `filterable_fields` dict, and address 2 the `extensions` mapping
holding one extension named `"e"` (instance identity 7). -/
def exHeapC1 : Heap PyDict := ⟨[[], [], [("e", 7)]]⟩

/-- The spec whose `extensions` member is the mapping at address 2. -/
def exSpecC1 : LoaderSpec := ⟨0, [], 1, ExtField.dictRef 2⟩

/-- Concrete heap for the clone-independence witness: address 0 holds the
sortable dict (field `"name"`, sort instance 10), address 1 the top-level
filterable dict (field `"age"` mapping to the inner dict at address 2),
and address 2 the inner operator dict (operator `"eq"`, filter instance
20). -/
def exHeapC5 : Heap PyDict := ⟨[[("name", 10)], [("age", 2)], [("eq", 20)]]⟩

/-- The spec over `exHeapC5` (no extensions). -/
def exSpecC5 : LoaderSpec := ⟨0, [], 1, ExtField.strList []⟩

/-- What the `LoaderSpecPiece` constructor guarantees about its
`required_extensions` argument living at address `a`: passing `None`
yields the empty sequence, passing the caller's list yields its elements
in order, and because the constructor copies them into a fresh list, any
later in-place mutation `g` of the caller's list leaves the piece's
`required_extensions` unchanged. -/
def pieceCopyIndependent (h : Heap (List String)) (a : Nat) : Prop :=
  LoaderSpecPiece.required_extensions (LoaderSpecPiece.mkPiece h none).1
    (LoaderSpecPiece.mkPiece h none).2 = [] ∧
  LoaderSpecPiece.required_extensions (LoaderSpecPiece.mkPiece h (some a)).1
    (LoaderSpecPiece.mkPiece h (some a)).2 = h.get a ∧
  ∀ g : List String → List String,
    LoaderSpecPiece.required_extensions
      ((LoaderSpecPiece.mkPiece h (some a)).1.update a g)
      (LoaderSpecPiece.mkPiece h (some a)).2 = h.get a

end Obj

/-! ### List and heap lemmas -/

theorem getD_append_lt {α : Type} [Inhabited α] (l t : List α) (a : Nat)
    (ha : a < l.length) : (l ++ t).getD a default = l.getD a default := by
  induction l generalizing a with
  | nil => simp at ha
  | cons x xs ih =>
      cases a with
      | zero => rfl
      | succ a' => simpa using ih a' (Nat.lt_of_succ_lt_succ ha)

theorem getD_concat_self {α : Type} [Inhabited α] (l : List α) (x : α) :
    (l ++ [x]).getD l.length default = x := by
  induction l with
  | nil => rfl
  | cons y ys ih => exact ih

theorem getD_set_ne {α : Type} [Inhabited α] (l : List α) (i j : Nat) (x : α)
    (hne : i ≠ j) : (l.set i x).getD j default = l.getD j default := by
  induction l generalizing i j with
  | nil => rfl
  | cons y ys ih =>
      cases i with
      | zero =>
          cases j with
          | zero => exact absurd rfl hne
          | succ j' => rfl
      | succ i' =>
          cases j with
          | zero => rfl
          | succ j' => exact ih i' j' (fun hh => hne (congrArg Nat.succ hh))

theorem Heap.get_alloc_lt {α : Type} [Inhabited α] (h : Heap α) (x : α) (a : Nat)
    (ha : a < h.store.length) : (h.alloc x).1.get a = h.get a :=
  getD_append_lt h.store [x] a ha

theorem Heap.get_alloc_self {α : Type} [Inhabited α] (h : Heap α) (x : α) :
    (h.alloc x).1.get (h.alloc x).2 = x :=
  getD_concat_self h.store x

theorem Heap.get_update_ne {α : Type} [Inhabited α] (h : Heap α) (a b : Nat)
    (g : α → α) (hne : a ≠ b) : (h.update a g).get b = h.get b :=
  getD_set_ne h.store a b _ hne

theorem Heap.alloc_length {α : Type} (h : Heap α) (x : α) :
    (h.alloc x).1.store.length = h.store.length + 1 := by
  simp [Heap.alloc]

theorem assoc_mem {β : Type} : ∀ (l : List (String × β)) (k : String) (v : β),
    assoc l k = some v → (k, v) ∈ l := by
  intro l
  induction l with
  | nil => intro k v hs; simp [assoc] at hs
  | cons p rest ih =>
      intro k v hs
      cases p with
      | mk p1 p2 =>
          simp only [assoc] at hs
          by_cases hk : p1 = k
          · subst hk
            rw [if_pos rfl] at hs
            cases hs
            exact List.mem_cons_self _ _
          · rw [if_neg hk] at hs
            exact List.mem_cons_of_mem _ (ih k v hs)

/-! ### Lemmas about `Obj.cloneFilterable` and `Obj.LoaderSpec.clone` -/

namespace Obj

theorem cloneFilterable_len (l : List (String × Nat)) : ∀ h : Heap PyDict,
    h.store.length ≤ (cloneFilterable h l).1.store.length := by
  induction l with
  | nil => intro h; exact Nat.le_refl _
  | cons p rest ih =>
      intro h
      have h2 := ih (h.alloc (h.get p.2)).1
      have h3 := Heap.alloc_length h (h.get p.2)
      simp only [cloneFilterable]
      omega

theorem cloneFilterable_get_lt (l : List (String × Nat)) :
    ∀ (h : Heap PyDict) (a : Nat), a < h.store.length →
      (cloneFilterable h l).1.get a = h.get a := by
  induction l with
  | nil => intro h a _; rfl
  | cons p rest ih =>
      intro h a ha
      simp only [cloneFilterable]
      rw [ih (h.alloc (h.get p.2)).1 a (by rw [Heap.alloc_length]; omega)]
      exact Heap.get_alloc_lt h _ a ha

theorem cloneFilterable_assoc (l : List (String × Nat)) :
    ∀ h : Heap PyDict, (∀ p ∈ l, p.2 < h.store.length) → ∀ f : String,
    (assoc (cloneFilterable h l).2 f = none ∧ assoc l f = none) ∨
    (∃ na ia, assoc (cloneFilterable h l).2 f = some na ∧ assoc l f = some ia ∧
      h.store.length ≤ na ∧ na < (cloneFilterable h l).1.store.length ∧
      (cloneFilterable h l).1.get na = h.get ia) := by
  induction l with
  | nil => intro h _ f; exact Or.inl ⟨rfl, rfl⟩
  | cons p rest ih =>
      intro h hv f
      have hv' : ∀ q ∈ rest, q.2 < (h.alloc (h.get p.2)).1.store.length := by
        intro q hq
        rw [Heap.alloc_length]
        exact Nat.lt_succ_of_lt (hv q (List.mem_cons_of_mem _ hq))
      by_cases hk : p.1 = f
      · right
        refine ⟨h.store.length, p.2, ?_, ?_, Nat.le_refl _, ?_, ?_⟩
        · simp only [cloneFilterable, assoc]
          rw [if_pos hk]
          rfl
        · simp only [assoc]
          rw [if_pos hk]
        · simp only [cloneFilterable]
          have h2 := cloneFilterable_len rest (h.alloc (h.get p.2)).1
          have h3 := Heap.alloc_length h (h.get p.2)
          omega
        · simp only [cloneFilterable]
          rw [cloneFilterable_get_lt rest (h.alloc (h.get p.2)).1 h.store.length
              (by rw [Heap.alloc_length]; omega)]
          exact Heap.get_alloc_self h (h.get p.2)
      · rcases ih (h.alloc (h.get p.2)).1 hv' f with ⟨e1, e2⟩ | ⟨na, ia, e1, e2, e3, e4, e5⟩
        · left
          constructor
          · simp only [cloneFilterable, assoc]
            rw [if_neg hk]
            exact e1
          · simp only [assoc]
            rw [if_neg hk]
            exact e2
        · right
          have hia : ia < h.store.length := by
            have := hv (f, ia) (List.mem_cons_of_mem _ (assoc_mem rest f ia e2))
            exact this
          refine ⟨na, ia, ?_, ?_, ?_, ?_, ?_⟩
          · simp only [cloneFilterable, assoc]
            rw [if_neg hk]
            exact e1
          · simp only [assoc]
            rw [if_neg hk]
            exact e2
          · have h3 := Heap.alloc_length h (h.get p.2)
            omega
          · simp only [cloneFilterable]
            exact e4
          · simp only [cloneFilterable]
            rw [e5]
            exact Heap.get_alloc_lt h _ ia hia

end Obj

namespace Obj

theorem clone_sortable_addr (h : Heap PyDict) (s : LoaderSpec) :
    (LoaderSpec.clone h s).2.sortable_fields = h.store.length := rfl

theorem clone_filterable_addr (h : Heap PyDict) (s : LoaderSpec) :
    (LoaderSpec.clone h s).2.filterable_fields =
      (cloneFilterable (h.alloc (h.get s.sortable_fields)).1
        ((h.alloc (h.get s.sortable_fields)).1.get s.filterable_fields)).1.store.length := rfl

theorem clone_filterable_addr_gt (h : Heap PyDict) (s : LoaderSpec) :
    h.store.length < (LoaderSpec.clone h s).2.filterable_fields := by
  rw [clone_filterable_addr]
  have h1 := cloneFilterable_len
      ((h.alloc (h.get s.sortable_fields)).1.get s.filterable_fields)
      (h.alloc (h.get s.sortable_fields)).1
  have h2 := Heap.alloc_length h (h.get s.sortable_fields)
  omega

theorem clone_get_lt (h : Heap PyDict) (s : LoaderSpec) (a : Nat)
    (ha : a < h.store.length) : (LoaderSpec.clone h s).1.get a = h.get a := by
  have hl1 : a < (h.alloc (h.get s.sortable_fields)).1.store.length := by
    rw [Heap.alloc_length]; omega
  have hl2 : a < (cloneFilterable (h.alloc (h.get s.sortable_fields)).1
      ((h.alloc (h.get s.sortable_fields)).1.get s.filterable_fields)).1.store.length :=
    Nat.lt_of_lt_of_le hl1 (cloneFilterable_len _ _)
  simp only [LoaderSpec.clone]
  rw [Heap.get_alloc_lt _ _ _ hl2, cloneFilterable_get_lt _ _ _ hl1,
      Heap.get_alloc_lt _ _ _ ha]

theorem clone_sortable_get (h : Heap PyDict) (s : LoaderSpec) :
    (LoaderSpec.clone h s).1.get (LoaderSpec.clone h s).2.sortable_fields =
      h.get s.sortable_fields := by
  have hl1 : h.store.length < (h.alloc (h.get s.sortable_fields)).1.store.length := by
    rw [Heap.alloc_length]; omega
  have hl2 : h.store.length < (cloneFilterable (h.alloc (h.get s.sortable_fields)).1
      ((h.alloc (h.get s.sortable_fields)).1.get s.filterable_fields)).1.store.length :=
    Nat.lt_of_lt_of_le hl1 (cloneFilterable_len _ _)
  rw [clone_sortable_addr]
  simp only [LoaderSpec.clone]
  rw [Heap.get_alloc_lt _ _ _ hl2, cloneFilterable_get_lt _ _ _ hl1]
  exact Heap.get_alloc_self h (h.get s.sortable_fields)

theorem clone_filterable_get (h : Heap PyDict) (s : LoaderSpec) :
    (LoaderSpec.clone h s).1.get (LoaderSpec.clone h s).2.filterable_fields =
      (cloneFilterable (h.alloc (h.get s.sortable_fields)).1
        ((h.alloc (h.get s.sortable_fields)).1.get s.filterable_fields)).2 := by
  rw [clone_filterable_addr]
  simp only [LoaderSpec.clone]
  exact Heap.get_alloc_self _ _

theorem clone_filter_assoc (h : Heap PyDict) (s : LoaderSpec) (hv : specValid h s)
    (f : String) :
    (assoc ((LoaderSpec.clone h s).1.get (LoaderSpec.clone h s).2.filterable_fields) f
        = none ∧
      assoc (h.get s.filterable_fields) f = none) ∨
    (∃ na ia,
      assoc ((LoaderSpec.clone h s).1.get (LoaderSpec.clone h s).2.filterable_fields) f
          = some na ∧
      assoc (h.get s.filterable_fields) f = some ia ∧
      h.store.length < na ∧ ia < h.store.length ∧
      (LoaderSpec.clone h s).1.get na = h.get ia) := by
  obtain ⟨hv1, hv2, hv3⟩ := hv
  have E0 : (h.alloc (h.get s.sortable_fields)).1.get s.filterable_fields =
      h.get s.filterable_fields := Heap.get_alloc_lt _ _ _ hv2
  have hv' : ∀ p ∈ (h.alloc (h.get s.sortable_fields)).1.get s.filterable_fields,
      p.2 < (h.alloc (h.get s.sortable_fields)).1.store.length := by
    rw [E0, Heap.alloc_length]
    intro p hp
    exact Nat.lt_succ_of_lt (hv3 p hp)
  rcases cloneFilterable_assoc _ _ hv' f with ⟨e1, e2⟩ | ⟨na, ia, e1, e2, e3, e4, e5⟩
  · left
    rw [clone_filterable_get]
    rw [E0] at e2
    exact ⟨e1, e2⟩
  · right
    rw [E0] at e2
    have hia : ia < h.store.length := hv3 _ (assoc_mem _ _ _ e2)
    refine ⟨na, ia, ?_, e2, ?_, hia, ?_⟩
    · rw [clone_filterable_get]
      exact e1
    · have h2 := Heap.alloc_length h (h.get s.sortable_fields)
      omega
    · simp only [LoaderSpec.clone]
      rw [Heap.get_alloc_lt _ _ _ e4, e5, Heap.get_alloc_lt _ _ _ hia]

theorem resolveSort_clone_eq (h : Heap PyDict) (s : LoaderSpec) (f : String) :
    resolveSort (LoaderSpec.clone h s).1 (LoaderSpec.clone h s).2 f =
      resolveSort h s f := by
  unfold resolveSort
  rw [clone_sortable_get]

theorem resolveFilter_clone_eq (h : Heap PyDict) (s : LoaderSpec)
    (hv : specValid h s) (f op : String) :
    resolveFilter (LoaderSpec.clone h s).1 (LoaderSpec.clone h s).2 f op =
      resolveFilter h s f op := by
  unfold resolveFilter
  rcases clone_filter_assoc h s hv f with ⟨e1, e2⟩ | ⟨na, ia, e1, e2, _, _, e5⟩
  · rw [e1, e2]
    rfl
  · rw [e1, e2]
    show assoc ((LoaderSpec.clone h s).1.get na) op = assoc (h.get ia) op
    rw [e5]

theorem resolveFilter_update_fresh (h : Heap PyDict) (s : LoaderSpec)
    (hv : specValid h s) (x : Nat) (hx : h.store.length ≤ x) (g : PyDict → PyDict)
    (f op : String) :
    resolveFilter ((LoaderSpec.clone h s).1.update x g) s f op =
      resolveFilter h s f op := by
  obtain ⟨hv1, hv2, hv3⟩ := hv
  have hne1 : x ≠ s.filterable_fields := by omega
  unfold resolveFilter
  rw [Heap.get_update_ne _ _ _ _ hne1, clone_get_lt h s _ hv2]
  cases hc : assoc (h.get s.filterable_fields) f with
  | none => rfl
  | some ia =>
      have hia : ia < h.store.length := hv3 _ (assoc_mem _ _ _ hc)
      have hne2 : x ≠ ia := by omega
      show assoc (((LoaderSpec.clone h s).1.update x g).get ia) op =
        assoc (h.get ia) op
      rw [Heap.get_update_ne _ _ _ _ hne2, clone_get_lt h s _ hia]

theorem resolveFilter_clone_update_low (h : Heap PyDict) (s : LoaderSpec)
    (hv : specValid h s) (x : Nat) (hx : x < h.store.length) (g : PyDict → PyDict)
    (f op : String) :
    resolveFilter ((LoaderSpec.clone h s).1.update x g) (LoaderSpec.clone h s).2 f op =
      resolveFilter (LoaderSpec.clone h s).1 (LoaderSpec.clone h s).2 f op := by
  have hfa := clone_filterable_addr_gt h s
  have hne1 : x ≠ (LoaderSpec.clone h s).2.filterable_fields := by omega
  unfold resolveFilter
  rw [Heap.get_update_ne _ _ _ _ hne1]
  rcases clone_filter_assoc h s hv f with ⟨e1, _⟩ | ⟨na, ia, e1, _, e3, _, _⟩
  · rw [e1]
    rfl
  · rw [e1]
    have hne2 : x ≠ na := by omega
    show assoc (((LoaderSpec.clone h s).1.update x g).get na) op =
      assoc ((LoaderSpec.clone h s).1.get na) op
    rw [Heap.get_update_ne _ _ _ _ hne2]

/-- Claim C5: `LoaderSpec.clone` produces a spec whose `sortable_fields`
and `filterable_fields` containers (at either lookup level) are fresh
objects, so adding or removing a field entry on the clone leaves the
original's corresponding mapping unchanged and vice versa, while every
key present in both resolves the identical `QuerySort` / `QueryFilter`
object instance. -/
theorem C5_clone_independent (h : Heap PyDict) (s : LoaderSpec)
    (hv : specValid h s) :
    cloneIndependence h s (LoaderSpec.clone h s).1 (LoaderSpec.clone h s).2 := by
  obtain ⟨hv1, hv2, hv3⟩ := hv
  have hva : specValid h s := ⟨hv1, hv2, hv3⟩
  have hsa := clone_sortable_addr h s
  have hfa := clone_filterable_addr_gt h s
  unfold cloneIndependence
  refine ⟨⟨?_, ?_⟩, ?_, ?_, ?_, ?_, ?_, ?_, ?_, ?_⟩
  · rw [hsa]; omega
  · omega
  · intro g
    have hne : (LoaderSpec.clone h s).2.sortable_fields ≠ s.sortable_fields := by
      rw [hsa]; omega
    rw [Heap.get_update_ne _ _ _ _ hne, clone_get_lt h s _ hv1]
  · intro g
    have hne : s.sortable_fields ≠ (LoaderSpec.clone h s).2.sortable_fields := by
      rw [hsa]; omega
    rw [Heap.get_update_ne _ _ _ _ hne]
  · intro g f op
    exact resolveFilter_update_fresh h s hva _ (by omega) g f op
  · intro g f op
    exact resolveFilter_clone_update_low h s hva _ hv2 g f op
  · intro f1 ca hca g f op
    rcases clone_filter_assoc h s hva f1 with ⟨e1, _⟩ | ⟨na, ia, e1, _, e3, _, _⟩
    · rw [e1] at hca
      exact Option.noConfusion hca
    · rw [e1] at hca
      have h9 : ca = na := (Option.some.inj hca).symm
      rw [h9]
      exact resolveFilter_update_fresh h s hva na (by omega) g f op
  · intro f1 oa hoa g f op
    have hlt : oa < h.store.length := hv3 _ (assoc_mem _ _ _ hoa)
    exact resolveFilter_clone_update_low h s hva oa hlt g f op
  · intro f
    exact resolveSort_clone_eq h s f
  · intro f op
    exact resolveFilter_clone_eq h s hva f op

/-- Witness for C5: the clone-independence property evaluated at the
concrete three-dict heap `exHeapC5`. -/
theorem C5_witness :
    specValid exHeapC5 exSpecC5 ∧
    cloneIndependence exHeapC5 exSpecC5 (LoaderSpec.clone exHeapC5 exSpecC5).1
      (LoaderSpec.clone exHeapC5 exSpecC5).2 :=
  ⟨by decide, C5_clone_independent exHeapC5 exSpecC5 (by decide)⟩

/-- Claim C1 (refuted by the code, which contradicts the field's own
docstring): with `extensions` the one-entry mapping at address 2 holding
extension `"e"` (instance identity 7), the original spec resolves `"e"`
to that instance, but `clone()` builds `list(self.extensions)` - the bare
list of key names `["e"]` - so the clone resolves no extension name at
all, instead of sharing the leaf instance by reference. -/
theorem C1_clone_drops_extensions :
    resolveExtension exHeapC1 exSpecC1 "e" = some 7 ∧
    (LoaderSpec.clone exHeapC1 exSpecC1).2.extensions = ExtField.strList ["e"] ∧
    resolveExtension (LoaderSpec.clone exHeapC1 exSpecC1).1
      (LoaderSpec.clone exHeapC1 exSpecC1).2 "e" = none :=
  ⟨rfl, rfl, rfl⟩

/-- Claim C9: constructing a `LoaderSpecPiece` with `required_extensions`
omitted or `None` yields the empty sequence; supplying the caller's list
yields its elements in order, copied into a fresh list, so mutating the
caller's list afterwards does not change the piece's
`required_extensions`. -/
theorem C9_piece_required_extensions (h : Heap (List String)) (a : Nat)
    (ha : a < h.store.length) : pieceCopyIndependent h a := by
  unfold pieceCopyIndependent
  refine ⟨?_, ?_, ?_⟩
  · exact Heap.get_alloc_self h []
  · exact Heap.get_alloc_self h (h.get a)
  · intro g
    have hne : a ≠ (LoaderSpecPiece.mkPiece h (some a)).2 := by
      have he : (LoaderSpecPiece.mkPiece h (some a)).2 = h.store.length := rfl
      omega
    unfold LoaderSpecPiece.required_extensions
    rw [Heap.get_update_ne _ _ _ _ hne]
    exact Heap.get_alloc_self h (h.get a)

/-- Witness for C9: the copy-independence property evaluated at a
one-object heap holding the caller's list `["x", "y"]`. -/
theorem C9_witness :
    0 < (⟨[["x", "y"]]⟩ : Heap (List String)).store.length ∧
    pieceCopyIndependent ⟨[["x", "y"]]⟩ 0 :=
  ⟨by decide, C9_piece_required_extensions ⟨[["x", "y"]]⟩ 0 (by decide)⟩

end Obj

namespace Base

theorem countExt_append (n : String) (q1 q2 : Query) :
    countExt n (q1 ++ q2) = countExt n q1 + countExt n q2 := by
  unfold countExt
  rw [List.filter_append, List.length_append]

theorem countExt_single (m : String) (e : QEvent) :
    countExt m [e] = if e = QEvent.ext m then 1 else 0 := by
  unfold countExt
  by_cases h : e = QEvent.ext m
  · simp [h]
  · simp [h]

theorem sortEvents_append (q1 q2 : Query) :
    sortEvents (q1 ++ q2) = sortEvents q1 ++ sortEvents q2 := by
  unfold sortEvents
  rw [List.filterMap_append]

theorem applyExtension_cases (st : LoaderBuilderBase) (n : String) :
    (applyExtension st n).1 = st ∨
    ((applyExtension st n).1 =
        { st with
            query := st.query ++ [QEvent.ext n],
            applied_extensions := st.applied_extensions ++ [n] } ∧
      n ∉ st.applied_extensions) := by
  unfold applyExtension
  cases assoc st.spec.extensions n with
  | none => exact Or.inl rfl
  | some e =>
      by_cases hm : n ∈ st.applied_extensions
      · rw [if_pos hm]
        exact Or.inl rfl
      · rw [if_neg hm]
        exact Or.inr ⟨rfl, hm⟩

theorem applyExtension_spec (st : LoaderBuilderBase) (n : String) :
    (applyExtension st n).1.spec = st.spec := by
  rcases applyExtension_cases st n with h | ⟨h, _⟩ <;> rw [h]

theorem applyExtension_sortAdded (st : LoaderBuilderBase) (n : String) :
    (applyExtension st n).1.sort_added = st.sort_added := by
  rcases applyExtension_cases st n with h | ⟨h, _⟩ <;> rw [h]

theorem applyExtension_sortEvents (st : LoaderBuilderBase) (n : String) :
    sortEvents (applyExtension st n).1.query = sortEvents st.query := by
  rcases applyExtension_cases st n with h | ⟨h, _⟩
  · rw [h]
  · rw [h]
    show sortEvents (st.query ++ [QEvent.ext n]) = sortEvents st.query
    rw [sortEvents_append]
    exact List.append_nil _

theorem applyExtension_ok (st : LoaderBuilderBase) (n : String)
    (h : (assoc st.spec.extensions n).isSome = true) :
    (applyExtension st n).2 = none := by
  unfold applyExtension
  cases hc : assoc st.spec.extensions n with
  | none => rw [hc] at h; exact Bool.noConfusion h
  | some e =>
      by_cases hm : n ∈ st.applied_extensions
      · rw [if_pos hm]
      · rw [if_neg hm]

theorem applyExtension_inv (st : LoaderBuilderBase) (n : String)
    (hinv : extInvariant st) : extInvariant (applyExtension st n).1 := by
  rcases applyExtension_cases st n with h | ⟨h, hm⟩
  · rw [h]; exact hinv
  · rw [h]
    intro m
    show countExt m (st.query ++ [QEvent.ext n]) =
      if m ∈ st.applied_extensions ++ [n] then 1 else 0
    rw [countExt_append, countExt_single]
    by_cases hmn : m = n
    · subst hmn
      have h0 := hinv m
      rw [if_neg hm] at h0
      rw [h0, if_pos rfl, if_pos (by simp)]
    · have h0 := hinv m
      rw [if_neg (fun hx => hmn (QEvent.ext.inj hx).symm), h0]
      by_cases hmem : m ∈ st.applied_extensions
      · rw [if_pos hmem, if_pos (List.mem_append_left _ hmem)]
      · rw [if_neg hmem, if_neg ?_]
        intro hx
        rcases List.mem_append.mp hx with h1 | h1
        · exact hmem h1
        · exact hmn (List.mem_singleton.mp h1)

theorem applyRequiredExtensions_state (l : List String) :
    ∀ st : LoaderBuilderBase,
      (applyRequiredExtensions st l).1.spec = st.spec ∧
      (applyRequiredExtensions st l).1.sort_added = st.sort_added ∧
      sortEvents (applyRequiredExtensions st l).1.query = sortEvents st.query := by
  induction l with
  | nil => intro st; exact ⟨rfl, rfl, rfl⟩
  | cons n rest ih =>
      intro st
      unfold applyRequiredExtensions
      cases hc : applyExtension st n with
      | mk st1 err =>
          have e1 : st1.spec = st.spec := by
            have hx := applyExtension_spec st n; rw [hc] at hx; exact hx
          have e2 : st1.sort_added = st.sort_added := by
            have hx := applyExtension_sortAdded st n; rw [hc] at hx; exact hx
          have e3 : sortEvents st1.query = sortEvents st.query := by
            have hx := applyExtension_sortEvents st n; rw [hc] at hx; exact hx
          cases err with
          | none =>
              obtain ⟨i1, i2, i3⟩ := ih st1
              exact ⟨i1.trans e1, i2.trans e2, i3.trans e3⟩
          | some e => exact ⟨e1, e2, e3⟩

theorem applyRequiredExtensions_ok (l : List String) :
    ∀ st : LoaderBuilderBase,
      (∀ n ∈ l, (assoc st.spec.extensions n).isSome = true) →
      (applyRequiredExtensions st l).2 = none := by
  induction l with
  | nil => intro st _; rfl
  | cons n rest ih =>
      intro st hall
      unfold applyRequiredExtensions
      cases hc : applyExtension st n with
      | mk st1 err =>
          cases err with
          | none =>
              apply ih st1
              intro m hm
              have e1 : st1.spec = st.spec := by
                have hx := applyExtension_spec st n; rw [hc] at hx; exact hx
              rw [e1]
              exact hall m (List.mem_cons_of_mem _ hm)
          | some e =>
              have h2 := applyExtension_ok st n (hall n (List.mem_cons_self _ _))
              rw [hc] at h2
              exact Option.noConfusion h2

theorem applyRequiredExtensions_inv (l : List String) :
    ∀ st : LoaderBuilderBase, extInvariant st →
      extInvariant (applyRequiredExtensions st l).1 := by
  induction l with
  | nil => intro st h; exact h
  | cons n rest ih =>
      intro st hinv
      unfold applyRequiredExtensions
      cases hc : applyExtension st n with
      | mk st1 err =>
          have hinv1 : extInvariant st1 := by
            have hx := applyExtension_inv st n hinv; rw [hc] at hx; exact hx
          cases err with
          | none => exact ih st1 hinv1
          | some e => exact hinv1

theorem addSort_inv (st : LoaderBuilderBase) (f : String) (d : SortDirection)
    (hinv : extInvariant st) : extInvariant (addSort st f d).1 := by
  unfold addSort
  split
  · exact hinv
  · next qs hq =>
      split
      · next st1 e heq =>
          have hx := applyRequiredExtensions_inv qs.required_extensions st hinv
          rw [heq] at hx
          exact hx
      · next st1 heq =>
          have hx := applyRequiredExtensions_inv qs.required_extensions st hinv
          rw [heq] at hx
          intro m
          show countExt m (st1.query ++ [QEvent.sorted f d]) =
            if m ∈ st1.applied_extensions then 1 else 0
          rw [countExt_append, countExt_single,
              if_neg (fun hx2 => QEvent.noConfusion hx2), Nat.add_zero]
          exact hx m

theorem addFilter_inv (st : LoaderBuilderBase) (f op : String) (v : Int)
    (hinv : extInvariant st) : extInvariant (addFilter st f op v).1 := by
  unfold addFilter
  split
  · exact hinv
  · next ops hops =>
      split
      · exact hinv
      · next qf hqf =>
          split
          · next st1 e heq =>
              have hx := applyRequiredExtensions_inv qf.required_extensions st hinv
              rw [heq] at hx
              exact hx
          · next st1 heq =>
              have hx := applyRequiredExtensions_inv qf.required_extensions st hinv
              rw [heq] at hx
              intro m
              show countExt m (st1.query ++ [QEvent.filt f op v]) =
                if m ∈ st1.applied_extensions then 1 else 0
              rw [countExt_append, countExt_single,
                  if_neg (fun hx2 => QEvent.noConfusion hx2), Nat.add_zero]
              exact hx m

theorem set_offset_inv (st : LoaderBuilderBase) (n : Int)
    (hinv : extInvariant st) : extInvariant (set_offset st n).1 := by
  intro m
  show countExt m (st.query ++ [QEvent.offs n]) =
    if m ∈ st.applied_extensions then 1 else 0
  rw [countExt_append, countExt_single,
      if_neg (fun hx => QEvent.noConfusion hx), Nat.add_zero]
  exact hinv m

theorem set_limit_inv (st : LoaderBuilderBase) (n : Int)
    (hinv : extInvariant st) : extInvariant (set_limit st n).1 := by
  intro m
  show countExt m (st.query ++ [QEvent.lim n]) =
    if m ∈ st.applied_extensions then 1 else 0
  rw [countExt_append, countExt_single,
      if_neg (fun hx => QEvent.noConfusion hx), Nat.add_zero]
  exact hinv m

theorem runOp_inv (st : LoaderBuilderBase) (o : BOp)
    (hinv : extInvariant st) : extInvariant (runOp st o).1 := by
  cases o with
  | ext n => exact applyExtension_inv st n hinv
  | filter f op v => exact addFilter_inv st f op v hinv
  | sort f d => exact addSort_inv st f d hinv
  | offs n => exact set_offset_inv st n hinv
  | lim n => exact set_limit_inv st n hinv

theorem runOps_inv (ops : List BOp) :
    ∀ st : LoaderBuilderBase, extInvariant st → extInvariant (runOps st ops) := by
  induction ops with
  | nil => intro st h; exact h
  | cons o rest ih =>
      intro st hinv
      exact ih (runOp st o).1 (runOp_inv st o hinv)

theorem applyDefaults_inv (ds : List DefaultSort) :
    ∀ st : LoaderBuilderBase, extInvariant st →
      extInvariant (applyDefaults st ds).1 := by
  induction ds with
  | nil => intro st h; exact h
  | cons d rest ih =>
      intro st hinv
      unfold applyDefaults
      cases hc : addSort st d.sort d.direction with
      | mk st1 err =>
          have hinv1 : extInvariant st1 := by
            have hx := addSort_inv st d.sort d.direction hinv
            rw [hc] at hx; exact hx
          cases err with
          | none => exact ih st1 hinv1
          | some e => exact hinv1

theorem build_inv (st : LoaderBuilderBase) (hinv : extInvariant st) :
    extInvariant (build st).1 := by
  unfold build
  by_cases hs : st.sort_added
  · rw [if_pos hs]; exact hinv
  · rw [if_neg hs]; exact applyDefaults_inv st.spec.default_sort_by st hinv

theorem mkBuilder_inv (spec : LoaderSpec) : extInvariant (mkBuilder spec) := by
  intro n
  show countExt n [] = if n ∈ ([] : List String) then 1 else 0
  rw [if_neg (List.not_mem_nil n)]
  rfl

theorem extInvariant_le_one (st : LoaderBuilderBase) (hinv : extInvariant st)
    (n : String) : countExt n st.query ≤ 1 := by
  rw [hinv n]
  by_cases hm : n ∈ st.applied_extensions
  · rw [if_pos hm]
  · rw [if_neg hm]; omega

end Base

namespace Base

theorem addSort_ok (st : LoaderBuilderBase) (f : String) (d : SortDirection)
    (qs : QuerySort) (hf : assoc st.spec.sortable_fields f = some qs)
    (hr : ∀ n ∈ qs.required_extensions, (assoc st.spec.extensions n).isSome = true) :
    (addSort st f d).2 = none ∧
    sortEvents (addSort st f d).1.query = sortEvents st.query ++ [(f, d)] ∧
    (addSort st f d).1.spec = st.spec := by
  unfold addSort
  split
  · next hq =>
      rw [hf] at hq
      exact Option.noConfusion hq
  · next qs2 hq =>
      rw [hf] at hq
      obtain rfl : qs2 = qs := (Option.some.inj hq).symm
      split
      · next st1 e heq =>
          have hok := applyRequiredExtensions_ok qs2.required_extensions st hr
          rw [heq] at hok
          exact Option.noConfusion hok
      · next st1 heq =>
          obtain ⟨s1, s2, s3⟩ := applyRequiredExtensions_state qs2.required_extensions st
          rw [heq] at s1 s3
          refine ⟨rfl, ?_, s1⟩
          show sortEvents (st1.query ++ [QEvent.sorted f d]) =
            sortEvents st.query ++ [(f, d)]
          rw [sortEvents_append, s3]
          rfl

theorem applyDefaults_ok (ds : List DefaultSort) :
    ∀ st : LoaderBuilderBase,
      (∀ d ∈ ds, ∃ qs, assoc st.spec.sortable_fields d.sort = some qs ∧
        ∀ n ∈ qs.required_extensions, (assoc st.spec.extensions n).isSome = true) →
      (applyDefaults st ds).2 = none ∧
      sortEvents (applyDefaults st ds).1.query =
        sortEvents st.query ++ ds.map (fun d => (d.sort, d.direction)) ∧
      (applyDefaults st ds).1.spec = st.spec := by
  induction ds with
  | nil =>
      intro st _
      refine ⟨rfl, ?_, rfl⟩
      show sortEvents st.query = sortEvents st.query ++ []
      rw [List.append_nil]
  | cons d rest ih =>
      intro st hall
      obtain ⟨qs, hf, hr⟩ := hall d (List.mem_cons_self _ _)
      obtain ⟨a1, a2, a3⟩ := addSort_ok st d.sort d.direction qs hf hr
      unfold applyDefaults
      cases hc : addSort st d.sort d.direction with
      | mk st1 err =>
          rw [hc] at a1 a2 a3
          cases err with
          | some e => exact Option.noConfusion a1
          | none =>
              have hall1 : ∀ d2 ∈ rest, ∃ qs2,
                  assoc st1.spec.sortable_fields d2.sort = some qs2 ∧
                  ∀ n ∈ qs2.required_extensions,
                    (assoc st1.spec.extensions n).isSome = true := by
                intro d2 hd2
                rw [a3]
                exact hall d2 (List.mem_cons_of_mem _ hd2)
              obtain ⟨i1, i2, i3⟩ := ih st1 hall1
              refine ⟨i1, ?_, i3.trans a3⟩
              rw [i2, a2, List.append_assoc]
              rfl

/-- Claim C6 (spec-modelled, the concrete `LoaderBuilderBase.add_filter`
is not among the given sources): for every field name that is not a key
of `spec.filterable_fields`, `add_filter(field, operator, value)` raises
the not-found error of the `ExtensionNotFound` family and leaves the
builder state - in particular its working query - exactly as it was
before the call. -/
theorem C6_add_filter_unknown_field (st : LoaderBuilderBase) (field op : String)
    (v : Int) (hf : assoc st.spec.filterable_fields field = none) :
    addFilter st field op v = (st, some (CallError.extensionNotFound field)) := by
  unfold addFilter
  rw [hf]

/-- Witness for C6: a builder over the empty spec rejects
`add_filter("status", "eq", 0)` and is left unchanged. -/
theorem C6_witness :
    assoc (mkBuilder (⟨[], [], [], []⟩ : LoaderSpec)).spec.filterable_fields
        "status" = none ∧
    addFilter (mkBuilder ⟨[], [], [], []⟩) "status" "eq" 0 =
      (mkBuilder ⟨[], [], [], []⟩, some (CallError.extensionNotFound "status")) :=
  ⟨rfl, C6_add_filter_unknown_field (mkBuilder ⟨[], [], [], []⟩) "status" "eq" 0 rfl⟩

/-- Claim C7 (spec-modelled, the concrete builder base class is not among
the given sources): in any build session - any sequence of
`apply_extension` / `add_filter` / `add_sort` / `set_offset` / `set_limit`
calls starting from a fresh builder, followed or not by `build()` - each
extension name's transform is applied to the working query at most once;
repeated requests, whether direct or via `required_extensions`, are
skipped. -/
theorem C7_extension_applied_once (spec : LoaderSpec) (ops : List BOp) (n : String) :
    countExt n (runOps (mkBuilder spec) ops).query ≤ 1 ∧
    countExt n (build (runOps (mkBuilder spec) ops)).1.query ≤ 1 := by
  have hinv := runOps_inv ops (mkBuilder spec) (mkBuilder_inv spec)
  exact ⟨extInvariant_le_one _ hinv n,
    extInvariant_le_one _ (build_inv _ hinv) n⟩

/-- The spec-side `build` contract (`Base.build`, modelled from spec
§4.3) does apply the defaults: from a fresh builder over `exSpecC8` with
no explicit sort added, the built query's sort-application trace is
exactly the single default entry. -/
theorem build_contract_applies_defaults :
    (build exBuilderC8).2 = none ∧
    sortEvents (build exBuilderC8).1.query = [("created", SortDirection.ASC)] := by
  have hall : ∀ d ∈ exBuilderC8.spec.default_sort_by, ∃ qs,
      assoc exBuilderC8.spec.sortable_fields d.sort = some qs ∧
      ∀ n ∈ qs.required_extensions,
        (assoc exBuilderC8.spec.extensions n).isSome = true := by
    intro d hd
    refine ⟨⟨[]⟩, ?_, ?_⟩
    · cases hd with
      | head => rfl
      | tail _ hd2 => exact absurd hd2 (List.not_mem_nil d)
    · intro n hn
      exact absurd hn (List.not_mem_nil n)
  obtain ⟨a1, a2, _⟩ := applyDefaults_ok exBuilderC8.spec.default_sort_by
    exBuilderC8 hall
  exact ⟨a1, a2⟩

/-- Claim C8 (refuted by the code the claim cites):
`SASimpleLoaderBuilder.build` overrides `build()` and binds the returned
loader to the working query as-is.  Evaluated at the failing input - a
fresh builder over `exSpecC8`, whose `default_sort_by` holds one entry
and on which no `add_sort` call occurred (`sort_added = false`) - the
query bound to the returned loader carries no sort application at all,
so it reflects none of the `default_sort_by` entries the claim (and the
spec's build contract) require. -/
theorem C8_build_ignores_defaults :
    exBuilderC8.sort_added = false ∧
    exBuilderC8.spec.default_sort_by = [⟨"created", SortDirection.ASC⟩] ∧
    SASimpleLoaderBuilder.build exBuilderC8 = exBuilderC8.query ∧
    sortEvents (SASimpleLoaderBuilder.build exBuilderC8) = [] :=
  ⟨rfl, rfl, rfl, rfl⟩

end Base

namespace SA

theorem Select.offset_eq_self_iff (q : Select) (n : Int) :
    q.offset n = q ↔ q.offsetVal = some n := by
  cases q with
  | mk base off lim =>
      unfold Select.offset
      constructor
      · intro h
        exact (congrArg Select.offsetVal h).symm
      · intro h
        rw [← h]

theorem Select.limit_eq_self_iff (q : Select) (n : Int) :
    q.limit n = q ↔ q.limitVal = some n := by
  cases q with
  | mk base off lim =>
      unfold Select.limit
      constructor
      · intro h
        exact (congrArg Select.limitVal h).symm
      · intro h
        rw [← h]

/-- Counterexample to claim C2: calling `set_offset(-1)` / `set_limit(-1)`
on either concrete builder returns normally (no input-validation error is
raised): the simple builder stores the negative value on the query, the
complex builder silently ignores it. -/
theorem C2_counterexample :
    SASimpleLoaderBuilder.set_offset ⟨⟨0, none, none⟩, 0⟩ (-1) =
      Except.ok ⟨⟨0, some (-1), none⟩, 0⟩ ∧
    SASimpleLoaderBuilder.set_limit ⟨⟨0, none, none⟩, 0⟩ (-1) =
      Except.ok ⟨⟨0, none, some (-1)⟩, 0⟩ ∧
    SAComplexLoaderBuilder.set_offset ⟨⟨0⟩, 0⟩ (-1) = Except.ok ⟨⟨0⟩, 0⟩ ∧
    SAComplexLoaderBuilder.set_limit ⟨⟨0⟩, 0⟩ (-1) = Except.ok ⟨⟨0⟩, 0⟩ :=
  ⟨rfl, rfl, rfl, rfl⟩

/-- Claim C2 as amended: `set_offset` / `set_limit` perform no validation
of their argument at all - for every integer argument, negative included,
the call succeeds; `SASimpleLoaderBuilder` stores the given value as the
query's offset/limit constraint and `SAComplexLoaderBuilder` ignores the
call. -/
theorem C2_amended_no_validation (b : SASimpleLoaderBuilder)
    (c : SAComplexLoaderBuilder) (n : Int) :
    SASimpleLoaderBuilder.set_offset b n =
      Except.ok { b with query := { b.query with offsetVal := some n } } ∧
    SASimpleLoaderBuilder.set_limit b n =
      Except.ok { b with query := { b.query with limitVal := some n } } ∧
    SAComplexLoaderBuilder.set_offset c n = Except.ok c ∧
    SAComplexLoaderBuilder.set_limit c n = Except.ok c :=
  ⟨rfl, rfl, rfl, rfl⟩

/-- Counterexample to claim C3: `SAComplexLoaderBuilder` is a concrete
`ConfigurableLoaderBuilder` on which `set_offset(5)` / `set_limit(7)`
leave the builder - in particular its working query - entirely unchanged,
even though the constraint is new. -/
theorem C3_counterexample :
    SAComplexLoaderBuilder.set_offset ⟨⟨0⟩, 0⟩ 5 = Except.ok ⟨⟨0⟩, 0⟩ ∧
    SAComplexLoaderBuilder.set_limit ⟨⟨0⟩, 0⟩ 7 = Except.ok ⟨⟨0⟩, 0⟩ :=
  ⟨rfl, rfl⟩

/-- Claim C3 as amended: for `SASimpleLoaderBuilder`, after
`set_offset(n)` / `set_limit(n)` the working query equals the previous
working query with the offset/limit constraint applied - and it differs
from the previous query exactly when the constraint is new - while
`SAComplexLoaderBuilder`'s `set_offset` / `set_limit` leave the working
query unchanged. -/
theorem C3_amended_working_query (b : SASimpleLoaderBuilder)
    (c : SAComplexLoaderBuilder) (n : Int) :
    SASimpleLoaderBuilder.set_offset b n =
      Except.ok { b with query := b.query.offset n } ∧
    SASimpleLoaderBuilder.set_limit b n =
      Except.ok { b with query := b.query.limit n } ∧
    (b.query.offset n = b.query ↔ b.query.offsetVal = some n) ∧
    (b.query.limit n = b.query ↔ b.query.limitVal = some n) ∧
    SAComplexLoaderBuilder.set_offset c n = Except.ok c ∧
    SAComplexLoaderBuilder.set_limit c n = Except.ok c :=
  ⟨rfl, rfl, Select.offset_eq_self_iff b.query n, Select.limit_eq_self_iff b.query n,
    rfl, rfl⟩

/-- Claim C4: `set_page(page, n)` leaves the builder in exactly the state
produced by calling `set_limit(n)` and then `set_offset(page * n)` on the
same builder, for all non-negative `page` and `n`, whatever the concrete
builder's own `set_offset` / `set_limit` operations are. -/
theorem C4_set_page {B : Type} (ops : ConfigurableOps B) (b : B) (page n : Int)
    (_hp : 0 ≤ page) (_hn : 0 ≤ n) :
    set_page ops b page n =
      (ops.set_limit b n).bind (fun b1 => ops.set_offset b1 (page * n)) := rfl

/-- Witness for C4: page 2 of size 5 on a fresh simple builder. -/
theorem C4_witness :
    (0 : Int) ≤ 2 ∧ (0 : Int) ≤ 5 ∧
    set_page simpleOps ⟨⟨0, none, none⟩, 0⟩ 2 5 =
      (simpleOps.set_limit ⟨⟨0, none, none⟩, 0⟩ 5).bind
        (fun b1 => simpleOps.set_offset b1 (2 * 5)) :=
  ⟨by decide, by decide,
    C4_set_page simpleOps ⟨⟨0, none, none⟩, 0⟩ 2 5 (by decide) (by decide)⟩

end SA

/-- Claim C10: for every string `s`, `DefaultSort.from_string(s)` returns
a `DefaultSort` whose sort field equals `s` and whose direction is the
declared default `SortDirection.UNSPECIFIED`. -/
theorem C10_from_string_default_direction (s : String) :
    (DefaultSort.from_string s).sort = s ∧
    (DefaultSort.from_string s).direction = SortDirection.UNSPECIFIED :=
  ⟨rfl, rfl⟩
